import Mathlib

/-!
Verification development for the PatientSync referral dashboard.

The definitions below are a shallow embedding of the client-side
filtering/aggregation pipeline of the repository:

* `src/src/pages/Referrals.tsx` — the `orders` useMemo filter pipeline
  (archive mode, account, stage, stoplight, advanced filters, free-text
  search, final sort by patient name), `handleStageSave`, and the Trends
  page `fetchTrendData` readiness computation;
* `src/src/hooks/useDashboardMetrics.ts` — `calculateMetricsForPeriod`,
  `calculateDelta` and the `kpis` construction.

Modelling conventions: JavaScript nullable values become `Option`;
timestamps are integer milliseconds; JS number arithmetic on metric
values is modelled over `ℚ`; `Array.prototype.sort` (stable, comparator
based) is modelled by insertion sort parametrised over the
`localeCompare`-induced comparison `lcLe a b` meaning
`a.localeCompare b ≤ 0`.
-/

namespace PatientSync

/-! ### JavaScript string helpers -/

/-- Model of JS `String.prototype.toLowerCase` (character-wise lowering). -/
def lowerStr (s : String) : String := ⟨s.data.map Char.toLower⟩

/-- Char-list substring occurrence test (JS `String.prototype.includes`). -/
def charsContain (needle : List Char) : List Char → Bool
  | [] => needle.isEmpty
  | c :: rest => List.isPrefixOf needle (c :: rest) || charsContain needle rest

/-- JS `hay.includes(needle)`. -/
def strIncludes (hay needle : String) : Bool :=
  charsContain needle.toList hay.toList

/-- JS `optStr?.toLowerCase().includes(needleLower)`; `none` (null chain) is falsy. -/
def optLowerIncludes (os : Option String) (needleLower : String) : Bool :=
  match os with
  | none => false
  | some s => strIncludes (lowerStr s) needleLower

/-! ### Data model (`src/lib/types` as used by the pipeline) -/

structure Patient where
  name : Option String
  dob : Option String
  primary_insurance : Option String
  required_documents : Option (List String)
deriving DecidableEq

structure DenialRef where
  order_id : String
deriving DecidableEq

structure StageTransition where
  previous_stage : String
  new_stage : String
deriving DecidableEq

structure Order where
  id : String
  patient_id : String
  patients : Option Patient
  workflow_stage : Option String
  is_archived : Option Bool
  stoplight_status : Option String
  document_status : Option (List (String × String))
  referral_date : Option Int
  payer_region : Option String
  rep_name : Option String
  created_at : Int
  denials : Option (List DenialRef)
  workflow_history : Option (List StageTransition)
deriving DecidableEq

/-- JS `order.document_status?.[key]` over the document-status map. -/
def lookupStatus (m : Option (List (String × String))) (k : String) : Option String :=
  match m with
  | none => none
  | some l => (l.find? (fun p => p.1 == k)).map (fun p => p.2)

/-- The `AdvancedFilters` object from `AdvancedFilterPanel`; `none` models an absent or
empty (falsy) field. Date fields hold the parsed `new Date(...)` timestamp. -/
structure AdvancedFilters where
  firstName : Option String
  lastName : Option String
  dob : Option String
  insurance : Option String
  dateStart : Option Int
  dateEnd : Option Int
  workflowStage : Option String
  docFilterKey : Option String
  docFilterStatus : Option String
  payer_region : Option String
  rep_name : Option String
deriving DecidableEq

/-- JS `Object.values(advancedFilters).some(v => v)` (Referrals.tsx line 119). -/
def AdvancedFilters.isActive (af : AdvancedFilters) : Bool :=
  af.firstName.isSome || af.lastName.isSome || af.dob.isSome || af.insurance.isSome ||
  af.dateStart.isSome || af.dateEnd.isSome || af.workflowStage.isSome ||
  af.docFilterKey.isSome || af.docFilterStatus.isSome || af.payer_region.isSome ||
  af.rep_name.isSome

/-- The filter inputs of the `orders` useMemo (Referrals.tsx lines 97-177). -/
structure FilterCriteria where
  archiveFilter : String
  accountFilter : Option String
  activeFilters : List String
  stoplightFilter : Option String
  advancedFilters : AdvancedFilters
  searchTerm : Option String
deriving DecidableEq

/-! ### Individual filter criteria (Referrals.tsx lines 100-176) -/

/-- Archive-mode criterion (lines 100-104): `active` keeps `is_archived !== true`
(null and undefined included), `archived` keeps `is_archived === true`,
anything else (the `all` branch) keeps everything. -/
def archivePass (archiveFilter : String) (o : Order) : Bool :=
  if archiveFilter = "active" then o.is_archived != some true
  else if archiveFilter = "archived" then o.is_archived == some true
  else true

/-- Resolution of the `archive_status` URL parameter (Referrals.tsx lines 44-45):
a missing or unrecognized value falls back to `active`. -/
def resolveArchiveFilter (param : Option String) : String :=
  match param with
  | none => "active"
  | some p => if p = "active" || p = "archived" || p = "all" then p else "active"

/-- Account criterion (line 107): `order.patients?.primary_insurance === accountFilter`. -/
def accountPass (acc : String) (o : Order) : Bool :=
  (o.patients.bind Patient.primary_insurance) == some acc

/-- Stage-chip criterion (line 111): `order.workflow_stage && activeFilters.includes(...)`. -/
def stagePass (active : List String) (o : Order) : Bool :=
  match o.workflow_stage with
  | none => false
  | some s => active.contains s

/-- Stoplight criterion (line 115): `order.stoplight_status === stoplightFilter`. -/
def stoplightPass (s : String) (o : Order) : Bool :=
  o.stoplight_status == some s

/-- JS `endDate.setHours(23, 59, 59, 999)` applied to the midnight timestamp of
the `dateEnd` calendar day (line 145): end of that day, in milliseconds. -/
def endOfDay (t : Int) : Int := t + 86399999

/-- The `dateStart` criterion (lines 139-141): records whose `referral_date` parses
strictly before `dateStart` are dropped; a missing `referral_date` passes. -/
def dateStartPass (ds rd : Option Int) : Bool :=
  match ds, rd with
  | some s, some r => !(decide (r < s))
  | _, _ => true

/-- The `dateEnd` criterion (lines 143-147): `dateEnd` is moved to 23:59:59.999 of
its day, records dated strictly after that are dropped. -/
def dateEndPass (de rd : Option Int) : Bool :=
  match de, rd with
  | some e, some r => !(decide (endOfDay e < r))
  | _, _ => true

/-- JS `order.patients?.required_documents?.includes(key)` (line 152). -/
def requiredContains (o : Order) (key : String) : Bool :=
  match o.patients.bind Patient.required_documents with
  | none => false
  | some l => l.contains key

/-- Document-requirement criterion (lines 151-158). -/
def docFilterPass (o : Order) (key status : String) : Bool :=
  let isRequired := requiredContains o key
  let isComplete := lookupStatus o.document_status key == some "Complete"
  if status == "Complete" && !isComplete then false
  else if status == "Missing" && (!isRequired || isComplete) then false
  else if status == "Not Required" && isRequired then false
  else true

/-- The advanced-filter predicate body (Referrals.tsx lines 120-164).
`isoDate` models `s => new Date(s).toISOString().split('T')[0]` used for the
date-of-birth normalization. -/
def advPasses (isoDate : String → String) (af : AdvancedFilters) (o : Order) : Bool :=
  match o.patients with
  | none => false
  | some patient =>
    (match af.firstName with
     | none => true
     | some fn =>
       match patient.name with
       | none => false
       | some n => strIncludes (lowerStr n) (lowerStr fn)) &&
    (match af.lastName with
     | none => true
     | some ln =>
       match patient.name with
       | none => false
       | some n => strIncludes (lowerStr n) (lowerStr ln)) &&
    (match af.dob, patient.dob with
     | some d, some pd => isoDate pd == d
     | _, _ => true) &&
    (match af.insurance with
     | none => true
     | some ins =>
       let insuranceList := (ins.splitOn ",").map (fun i => (lowerStr i).trim)
       match patient.primary_insurance with
       | none => false
       | some pi => insuranceList.contains (lowerStr pi)) &&
    dateStartPass af.dateStart o.referral_date &&
    dateEndPass af.dateEnd o.referral_date &&
    (match af.workflowStage with
     | none => true
     | some ws => o.workflow_stage == some ws) &&
    (match af.docFilterKey, af.docFilterStatus with
     | some k, some st => docFilterPass o k st
     | _, _ => true) &&
    (match af.payer_region with
     | none => true
     | some pr => o.payer_region == some pr) &&
    (match af.rep_name with
     | none => true
     | some rn => o.rep_name == some rn)

/-- Free-text search criterion (lines 167-174); the term is lowercased once. -/
def searchPass (term : String) (o : Order) : Bool :=
  let lt := lowerStr term
  optLowerIncludes (o.patients.bind Patient.name) lt ||
  optLowerIncludes (o.patients.bind Patient.primary_insurance) lt ||
  optLowerIncludes o.workflow_stage lt

/-! ### The filter pipeline as the sequence of `Array.filter` stages -/

def archiveStep (m : String) (l : List Order) : List Order :=
  l.filter (archivePass m)

def accountStep (acc : Option String) (l : List Order) : List Order :=
  match acc with
  | none => l
  | some a => l.filter (accountPass a)

def stageStep (active : List String) (l : List Order) : List Order :=
  if 0 < active.length then l.filter (stagePass active) else l

def stoplightStep (s : Option String) (l : List Order) : List Order :=
  match s with
  | none => l
  | some st => l.filter (stoplightPass st)

def advStep (isoDate : String → String) (af : AdvancedFilters) (l : List Order) : List Order :=
  if af.isActive then l.filter (advPasses isoDate af) else l

def searchStep (t : Option String) (l : List Order) : List Order :=
  match t with
  | none => l
  | some term => l.filter (searchPass term)

/-- The filter chain of the `orders` useMemo before the final sort. -/
def preSortPipeline (isoDate : String → String) (c : FilterCriteria)
    (allOrders : List Order) : List Order :=
  searchStep c.searchTerm
    (advStep isoDate c.advancedFilters
      (stoplightStep c.stoplightFilter
        (stageStep c.activeFilters
          (accountStep c.accountFilter
            (archiveStep c.archiveFilter allOrders)))))

/-- The sort key of line 176: `a.patients?.name || ''`. -/
def sortKey (o : Order) : String :=
  (o.patients.bind Patient.name).getD ""

/-- The comparator relation induced by `localeCompare`: `sortLe lcLe a b` states
that `(a.patients?.name || '').localeCompare(b.patients?.name || '') ≤ 0`. -/
def sortLe (lcLe : String → String → Bool) (a b : Order) : Prop :=
  lcLe (sortKey a) (sortKey b) = true

instance (lcLe : String → String → Bool) : DecidableRel (sortLe lcLe) :=
  fun _ _ => inferInstanceAs (Decidable (_ = true))

/-- The full `orders` useMemo (Referrals.tsx lines 97-177): filter chain, then
the stable comparator sort of line 176, modelled by insertion sort. -/
def ordersPipeline (isoDate : String → String) (lcLe : String → String → Bool)
    (c : FilterCriteria) (allOrders : List Order) : List Order :=
  List.insertionSort (sortLe lcLe) (preSortPipeline isoDate c allOrders)

/-! ### Workflow stage ordering and regression detection -/

/-- Index of a stage name in the configured stage list (0-based; the length of
the list when absent). -/
def stageIdx : List String → String → Nat
  | [], _ => 0
  | a :: t, s => if a == s then 0 else stageIdx t s + 1

/-- Modelled from the spec: the helper `isBackward` is imported from
`src/lib/utils`, whose source file is not part of the repository snapshot
(only its call sites in `Referrals.tsx` and `useDashboardMetrics.ts` are).
Spec §4.3: a fixed ordered list of stage names defines a total order, and a
transition is a regression iff the new stage's index in that order is
strictly less than the current stage's index. -/
def isBackward (stages : List String) (currentStage newStage : String) : Bool :=
  decide (stageIdx stages newStage < stageIdx stages currentStage)

/-! ### Aggregation engine (`useDashboardMetrics.ts`) -/

/-- JS `o.patients?.required_documents || []` as used throughout the metrics
and trends code. -/
def requiredDocsOf (o : Order) : List String :=
  (o.patients.bind Patient.required_documents).getD []

/-- JS `o.document_status?.[d] === 'Complete'`. -/
def docCompleteFor (o : Order) (d : String) : Bool :=
  lookupStatus o.document_status d == some "Complete"

/-- The in-window selection of `calculateMetricsForPeriod` (lines 14-17):
`createdAt >= from && createdAt <= to`. -/
def periodFilter (fromDate toDate : Int) (orders : List Order) : List Order :=
  orders.filter (fun o => decide (fromDate ≤ o.created_at) && decide (o.created_at ≤ toDate))

/-- The readiness lambda of `readyForPar` (useDashboardMetrics.ts lines 21-24):
`required.length > 0 && required.every(d => o.document_status?.[d] === 'Complete')`. -/
def metricsDocsReady (o : Order) : Bool :=
  decide (0 < (requiredDocsOf o).length) && (requiredDocsOf o).all (docCompleteFor o)

/-- The `isReady` expression of the Trends page `fetchTrendData`
(Referrals.tsx lines 1189-1190). -/
def trendDocsReady (o : Order) : Bool :=
  decide (0 < (requiredDocsOf o).length) && (requiredDocsOf o).all (docCompleteFor o)

/-- The `totalDocs` accumulator (line 32): sum of required-document counts over the window. -/
def totalDocs (l : List Order) : Nat :=
  l.foldl (fun s o => s + (requiredDocsOf o).length) 0

/-- The `completedDocs` accumulator (lines 33-36): sum of completed required documents. -/
def completedDocs (l : List Order) : Nat :=
  l.foldl (fun s o => s + ((requiredDocsOf o).filter (docCompleteFor o)).length) 0

/-- The record returned by `calculateMetricsForPeriod`. Counts are naturals;
the two rate metrics are rationals (JS numbers with division). -/
structure PeriodMetrics where
  newReferrals : Nat
  readyForPar : Nat
  denials : Nat
  regressions : Nat
  docsCompletePercent : ℚ
  avgAge : ℚ
deriving DecidableEq

/-- The function `calculateMetricsForPeriod` (useDashboardMetrics.ts lines 13-44).
`stages` feeds the spec-modelled `isBackward`; `daysOld` models the helper of
the same name from `src/lib/utils` (absent from the snapshot), mapping a
`created_at` timestamp to an age in days. -/
def calculateMetricsForPeriod (stages : List String) (daysOld : Int → ℚ)
    (orders : List Order) (fromDate toDate : Int) : PeriodMetrics :=
  let periodOrders := periodFilter fromDate toDate orders
  let newReferrals := periodOrders.length
  let readyForPar := (periodOrders.filter metricsDocsReady).length
  let denials :=
    ((periodOrders.flatMap (fun o => ((o.denials).getD []).map DenialRef.order_id)).dedup).length
  let regressions :=
    (periodOrders.filter (fun o =>
      ((o.workflow_history).getD []).any
        (fun h => isBackward stages h.previous_stage h.new_stage))).length
  let total := totalDocs periodOrders
  let completed := completedDocs periodOrders
  let docsCompletePercent : ℚ := if 0 < total then ((completed : ℚ) / (total : ℚ)) * 100 else 0
  let avgAge : ℚ :=
    if 0 < periodOrders.length then
      (periodOrders.foldl (fun s o => s + daysOld o.created_at) 0) / (periodOrders.length : ℚ)
    else 0
  ⟨newReferrals, readyForPar, denials, regressions, docsCompletePercent, avgAge⟩

/-- The function `calculateDelta` (useDashboardMetrics.ts lines 79-82). -/
def calculateDelta (current prev : ℚ) : ℚ :=
  if prev = 0 then (if 0 < current then 100 else 0)
  else ((current - prev) / prev) * 100

structure KpiEntry where
  value : ℚ
  delta : ℚ
deriving DecidableEq

structure Kpis where
  newReferrals : KpiEntry
  readyForPar : KpiEntry
  denials : KpiEntry
  regressions : KpiEntry
  docsCompletePercent : KpiEntry
  avgAge : KpiEntry
deriving DecidableEq

/-- The `kpis` object (useDashboardMetrics.ts lines 89-96): count metrics use
`calculateDelta`, the two rate metrics use the absolute difference. -/
def mkKpis (cur prev : PeriodMetrics) : Kpis :=
  ⟨⟨(cur.newReferrals : ℚ), calculateDelta (cur.newReferrals : ℚ) (prev.newReferrals : ℚ)⟩,
   ⟨(cur.readyForPar : ℚ), calculateDelta (cur.readyForPar : ℚ) (prev.readyForPar : ℚ)⟩,
   ⟨(cur.denials : ℚ), calculateDelta (cur.denials : ℚ) (prev.denials : ℚ)⟩,
   ⟨(cur.regressions : ℚ), calculateDelta (cur.regressions : ℚ) (prev.regressions : ℚ)⟩,
   ⟨cur.docsCompletePercent, cur.docsCompletePercent - prev.docsCompletePercent⟩,
   ⟨cur.avgAge, cur.avgAge - prev.avgAge⟩⟩

/-- The readiness predicate as the specification words it: the referral's
patient has at least one required document and every required document's
status equals Complete; a missing patient, or an absent or empty
required-document list, is never ready. -/
def readySpec (o : Order) : Bool :=
  match o.patients with
  | none => false
  | some p =>
    match p.required_documents with
    | none => false
    | some reqs => !reqs.isEmpty && reqs.all (docCompleteFor o)

/-! ### Stage-change save (`handleStageSave`) -/

/-- A successful write sent to the record store by `handleStageSave`. -/
inductive DbEffect where
  | updateOrder (orderId : String) (newStage : String) (note : String)
  | addNote (patientId : String) (body : String) (stageFrom : String) (stageTo : String)
  | insertRegression (orderId : String) (reason : String) (notes : String)
      (previousStage : String) (newStage : String)
deriving DecidableEq

def isRegressionInsert : DbEffect → Bool
  | DbEffect.insertRegression _ _ _ _ _ => true
  | _ => false

/-- The handler `handleStageSave` (Referrals.tsx lines 237-278, and the identical logic of
the PatientDetailPage version, lines 971-1007), as the list of successful
record-store writes. `currentStage` is `selectedOrder.workflow_stage` (typed
`WorkflowStage` in TS); `orderUpdateFails` models the orders-update returning
an error, which makes the handler return before any further write; a `none`
`regressionReason` models an absent or empty (falsy) reason. -/
def handleStageSave (stages : List String) (o : Order) (currentStage : String)
    (newStage note : String) (regressionReason : Option String)
    (orderUpdateFails : Bool) : List DbEffect :=
  if o.patients.isNone then []
  else
    let isRegression := isBackward stages currentStage newStage
    if orderUpdateFails then []
    else
      [DbEffect.updateOrder o.id newStage note,
       DbEffect.addNote o.patient_id note currentStage newStage] ++
      (if isRegression && regressionReason.isSome then
        [DbEffect.insertRegression o.id (regressionReason.getD "") note currentStage newStage]
      else [])

/-! ### Membership through the filter steps -/

theorem mem_archiveStep {m : String} {l : List Order} {o : Order}
    (h : o ∈ archiveStep m l) : o ∈ l ∧ archivePass m o = true :=
  List.mem_filter.mp h

theorem mem_accountStep {acc : Option String} {l : List Order} {o : Order}
    (h : o ∈ accountStep acc l) :
    o ∈ l ∧ ∀ a, acc = some a → accountPass a o = true := by
  cases acc with
  | none => exact ⟨h, fun a ha => by cases ha⟩
  | some a =>
    have hm := List.mem_filter.mp h
    exact ⟨hm.1, fun b hb => by cases hb; exact hm.2⟩

theorem mem_stageStep {active : List String} {l : List Order} {o : Order}
    (h : o ∈ stageStep active l) :
    o ∈ l ∧ (0 < active.length → stagePass active o = true) := by
  unfold stageStep at h
  by_cases hc : 0 < active.length
  · rw [if_pos hc] at h
    have hm := List.mem_filter.mp h
    exact ⟨hm.1, fun _ => hm.2⟩
  · rw [if_neg hc] at h
    exact ⟨h, fun hx => absurd hx hc⟩

theorem mem_stoplightStep {s : Option String} {l : List Order} {o : Order}
    (h : o ∈ stoplightStep s l) :
    o ∈ l ∧ ∀ x, s = some x → stoplightPass x o = true := by
  cases s with
  | none => exact ⟨h, fun x hx => by cases hx⟩
  | some x =>
    have hm := List.mem_filter.mp h
    exact ⟨hm.1, fun y hy => by cases hy; exact hm.2⟩

theorem mem_advStep {isoDate : String → String} {af : AdvancedFilters}
    {l : List Order} {o : Order} (h : o ∈ advStep isoDate af l) :
    o ∈ l ∧ (af.isActive = true → advPasses isoDate af o = true) := by
  unfold advStep at h
  by_cases hc : af.isActive = true
  · rw [if_pos hc] at h
    have hm := List.mem_filter.mp h
    exact ⟨hm.1, fun _ => hm.2⟩
  · rw [if_neg hc] at h
    exact ⟨h, fun hx => absurd hx hc⟩

theorem mem_searchStep {t : Option String} {l : List Order} {o : Order}
    (h : o ∈ searchStep t l) :
    o ∈ l ∧ ∀ x, t = some x → searchPass x o = true := by
  cases t with
  | none => exact ⟨h, fun x hx => by cases hx⟩
  | some x =>
    have hm := List.mem_filter.mp h
    exact ⟨hm.1, fun y hy => by cases hy; exact hm.2⟩

theorem mem_preSort {isoDate : String → String} {c : FilterCriteria}
    {l : List Order} {o : Order} (h : o ∈ preSortPipeline isoDate c l) :
    o ∈ l ∧ archivePass c.archiveFilter o = true ∧
    (∀ a, c.accountFilter = some a → accountPass a o = true) ∧
    (0 < c.activeFilters.length → stagePass c.activeFilters o = true) ∧
    (∀ s, c.stoplightFilter = some s → stoplightPass s o = true) ∧
    (c.advancedFilters.isActive = true → advPasses isoDate c.advancedFilters o = true) ∧
    (∀ t, c.searchTerm = some t → searchPass t o = true) := by
  unfold preSortPipeline at h
  obtain ⟨h, hsearch⟩ := mem_searchStep h
  obtain ⟨h, hadv⟩ := mem_advStep h
  obtain ⟨h, hstop⟩ := mem_stoplightStep h
  obtain ⟨h, hstage⟩ := mem_stageStep h
  obtain ⟨h, hacc⟩ := mem_accountStep h
  obtain ⟨h, harch⟩ := mem_archiveStep h
  exact ⟨h, harch, hacc, hstage, hstop, hadv, hsearch⟩

theorem mem_pipeline {isoDate : String → String} {lcLe : String → String → Bool}
    {c : FilterCriteria} {l : List Order} {o : Order} :
    o ∈ ordersPipeline isoDate lcLe c l ↔ o ∈ preSortPipeline isoDate c l :=
  List.mem_insertionSort (sortLe lcLe)

/-! ### Stable-sort lemmas -/

theorem orderedInsert_all_rel {α : Type} {r : α → α → Prop} [DecidableRel r] {a : α}
    {l : List α} (h : ∀ b ∈ l, r a b) : List.orderedInsert r a l = a :: l := by
  cases l with
  | nil => rfl
  | cons b t => exact List.orderedInsert_of_le r t (h b (List.mem_cons_self b t))

theorem filter_orderedInsert {α : Type} {r : α → α → Prop} [DecidableRel r]
    (htr : ∀ x y z, r x y → r y z → r x z) (p : α → Bool) (a : α)
    (l : List α) (hl : l.Pairwise r) :
    (List.orderedInsert r a l).filter p =
      if p a then List.orderedInsert r a (l.filter p) else l.filter p := by
  induction l with
  | nil => cases hp : p a <;> simp [List.orderedInsert, List.filter, hp]
  | cons b t ih =>
    have hb : ∀ z ∈ t, r b z := (List.pairwise_cons.mp hl).1
    have ht : t.Pairwise r := (List.pairwise_cons.mp hl).2
    by_cases hab : r a b
    · rw [List.orderedInsert_of_le r t hab]
      cases hp : p a with
      | true =>
        cases hpb : p b with
        | true =>
          simp only [List.filter_cons, hp, hpb, if_pos, cond_true]
          rw [List.orderedInsert_of_le r (t.filter p) hab]
        | false =>
          simp only [List.filter_cons, hp, hpb, cond_true, cond_false, if_pos]
          rw [orderedInsert_all_rel]
          intro z hz
          have hzt := (List.mem_filter.mp hz).1
          exact htr a b z hab (hb z hzt)
      | false =>
        simp [List.filter_cons, hp]
    · have he : List.orderedInsert r a (b :: t) = b :: List.orderedInsert r a t := by
        rw [List.orderedInsert]
        exact if_neg hab
      rw [he]
      cases hp : p a with
      | true =>
        cases hpb : p b with
        | true =>
          simp only [List.filter_cons, hp, hpb, cond_true]
          rw [ih ht]
          simp only [hp, if_pos]
          have he2 : List.orderedInsert r a (b :: t.filter p) =
              b :: List.orderedInsert r a (t.filter p) := by
            rw [List.orderedInsert]
            exact if_neg hab
          rw [he2]
        | false =>
          simp only [List.filter_cons, hp, hpb, cond_true, cond_false]
          rw [ih ht]
          simp [hp]
      | false =>
        cases hpb : p b with
        | true =>
          simp only [List.filter_cons, hp, hpb, cond_true, cond_false]
          rw [ih ht]
          simp [hp]
        | false =>
          simp only [List.filter_cons, hp, hpb, cond_false]
          rw [ih ht]
          simp [hp]

theorem filter_insertionSort {α : Type} {r : α → α → Prop} [DecidableRel r]
    (htot : ∀ x y, r x y ∨ r y x) (htr : ∀ x y z, r x y → r y z → r x z)
    (p : α → Bool) (l : List α) :
    (List.insertionSort r l).filter p = List.insertionSort r (l.filter p) := by
  induction l with
  | nil => rfl
  | cons a t ih =>
    have hsorted : (List.insertionSort r t).Pairwise r := by
      haveI : IsTotal α r := ⟨htot⟩
      haveI : IsTrans α r := ⟨fun x y z => htr x y z⟩
      exact List.sorted_insertionSort r t
    rw [List.insertionSort, filter_orderedInsert htr p a _ hsorted, ih]
    cases hp : p a <;> simp [hp, List.filter_cons, List.insertionSort]

/-! ### Filter/step commutation -/

theorem filter_swap {α : Type} (p q : α → Bool) (l : List α) :
    (l.filter p).filter q = (l.filter q).filter p := by
  simp only [List.filter_filter]
  exact List.filter_congr (fun a _ => by rw [Bool.and_comm])

theorem accountStep_filter (acc : Option String) (p : Order → Bool) (l : List Order) :
    accountStep acc (l.filter p) = (accountStep acc l).filter p := by
  cases acc with
  | none => rfl
  | some a => exact filter_swap p (accountPass a) l

theorem stageStep_filter (active : List String) (p : Order → Bool) (l : List Order) :
    stageStep active (l.filter p) = (stageStep active l).filter p := by
  unfold stageStep
  by_cases hc : 0 < active.length
  · rw [if_pos hc, if_pos hc]
    exact filter_swap p (stagePass active) l
  · rw [if_neg hc, if_neg hc]

theorem stoplightStep_filter (s : Option String) (p : Order → Bool) (l : List Order) :
    stoplightStep s (l.filter p) = (stoplightStep s l).filter p := by
  cases s with
  | none => rfl
  | some st => exact filter_swap p (stoplightPass st) l

theorem advStep_filter (isoDate : String → String) (af : AdvancedFilters)
    (p : Order → Bool) (l : List Order) :
    advStep isoDate af (l.filter p) = (advStep isoDate af l).filter p := by
  unfold advStep
  by_cases hc : af.isActive = true
  · rw [if_pos hc, if_pos hc]
    exact filter_swap p (advPasses isoDate af) l
  · rw [if_neg hc, if_neg hc]

theorem searchStep_filter (t : Option String) (p : Order → Bool) (l : List Order) :
    searchStep t (l.filter p) = (searchStep t l).filter p := by
  cases t with
  | none => rfl
  | some term => exact filter_swap p (searchPass term) l

theorem archivePass_all (o : Order) : archivePass "all" o = true := by
  unfold archivePass
  rw [if_neg (by decide), if_neg (by decide)]

theorem archivePass_archived_not_active (o : Order) :
    archivePass "archived" o = !(archivePass "active" o) := by
  unfold archivePass
  rw [if_neg (by decide : ¬("archived" : String) = "active"), if_pos rfl, if_pos rfl]
  cases h : o.is_archived == some true <;> simp [bne, h]

theorem preSort_mk_archive (isoDate : String → String) (m : String)
    (acc : Option String) (act : List String) (stop : Option String)
    (af : AdvancedFilters) (t : Option String) (l : List Order) :
    preSortPipeline isoDate ⟨m, acc, act, stop, af, t⟩ l =
      (preSortPipeline isoDate ⟨"all", acc, act, stop, af, t⟩ l).filter (archivePass m) := by
  unfold preSortPipeline archiveStep
  simp only
  rw [List.filter_eq_self.mpr (fun a _ => archivePass_all a)]
  rw [← searchStep_filter, ← advStep_filter, ← stoplightStep_filter, ← stageStep_filter,
    ← accountStep_filter]

theorem pipeline_mk_archive (isoDate : String → String) (lcLe : String → String → Bool)
    (htot : ∀ a b, lcLe a b = true ∨ lcLe b a = true)
    (htr : ∀ a b c, lcLe a b = true → lcLe b c = true → lcLe a c = true)
    (m : String) (acc : Option String) (act : List String) (stop : Option String)
    (af : AdvancedFilters) (t : Option String) (l : List Order) :
    ordersPipeline isoDate lcLe ⟨m, acc, act, stop, af, t⟩ l =
      (ordersPipeline isoDate lcLe ⟨"all", acc, act, stop, af, t⟩ l).filter (archivePass m) := by
  unfold ordersPipeline
  rw [preSort_mk_archive]
  exact (filter_insertionSort (fun x y => htot (sortKey x) (sortKey y))
    (fun x y z => htr (sortKey x) (sortKey y) (sortKey z)) (archivePass m) _).symm

/-! ### Shared concrete sample data for witnesses -/

def samplePatient : Patient := ⟨some "Alice", none, some "Acme", some ["FACE"]⟩

def sampleOrder : Order :=
  ⟨"o1", "p1", some samplePatient, some "Docs", none, some "green",
   some [("FACE", "Complete")], some 1000, some "West", some "Riley", 5, none, none⟩

/-- An order with no joined patient row. -/
def bareOrder : Order :=
  ⟨"o0", "p0", none, some "Intake", none, none, none, none, none, none, 3, none, none⟩

def afNone : AdvancedFilters :=
  ⟨none, none, none, none, none, none, none, none, none, none, none⟩

def afRegion : AdvancedFilters :=
  ⟨none, none, none, none, none, none, none, none, none, some "West", none⟩

def sampleCriteria : FilterCriteria :=
  ⟨"active", some "Acme", ["Docs"], some "green", afRegion, some "ali"⟩

def sampleOrders : List Order := [sampleOrder, bareOrder]

def c4AF : AdvancedFilters :=
  ⟨none, none, none, none, some 100, some 200, none, none, none, none, none⟩

def c4Order : Order :=
  ⟨"o4", "p4", some samplePatient, some "Docs", none, none, none,
   some 150, none, none, 0, none, none⟩

theorem stageIdx_get : ∀ (l : List String), l.Nodup → ∀ (i : Fin l.length),
    stageIdx l (l.get i) = i
  | [], _, i => absurd i.isLt (by simp)
  | a :: t, h, ⟨0, _⟩ => by simp [stageIdx]
  | a :: t, h, ⟨j + 1, hj⟩ => by
    have hjt : j < t.length := Nat.lt_of_succ_lt_succ hj
    have hne : (a == t.get ⟨j, hjt⟩) = false := by
      apply beq_eq_false_iff_ne.mpr
      intro heq
      exact (List.nodup_cons.mp h).1 (heq ▸ List.get_mem t j hjt)
    have ih := stageIdx_get t (List.nodup_cons.mp h).2 ⟨j, hjt⟩
    show (if a == t.get ⟨j, hjt⟩ then 0 else stageIdx t (t.get ⟨j, hjt⟩) + 1) = j + 1
    rw [hne]
    simp only [Bool.false_eq_true, if_false]
    simpa using ih

theorem strLe_total (a b : String) : decide (a ≤ b) = true ∨ decide (b ≤ a) = true := by
  rcases le_total a b with h | h
  · exact Or.inl (decide_eq_true h)
  · exact Or.inr (decide_eq_true h)

theorem strLe_trans (a b c : String) (h1 : decide (a ≤ b) = true)
    (h2 : decide (b ≤ c) = true) : decide (a ≤ c) = true :=
  decide_eq_true (le_trans (of_decide_eq_true h1) (of_decide_eq_true h2))

/-! ### Claims -/

/-- C1: for every fetched referral collection and every combination of active
filter criteria, every record in the filtered result of the Referrals page
pipeline satisfies each active criterion individually: archive mode, account,
selected stage names, stoplight status, the advanced-filter block, and the
free-text search term combine by logical AND. -/
theorem c1_conjunctive_filtering (isoDate : String → String)
    (lcLe : String → String → Bool) (c : FilterCriteria) (l : List Order)
    (o : Order) (h : o ∈ ordersPipeline isoDate lcLe c l) :
    o ∈ l ∧ archivePass c.archiveFilter o = true ∧
    (∀ a, c.accountFilter = some a → accountPass a o = true) ∧
    (0 < c.activeFilters.length → stagePass c.activeFilters o = true) ∧
    (∀ s, c.stoplightFilter = some s → stoplightPass s o = true) ∧
    (c.advancedFilters.isActive = true → advPasses isoDate c.advancedFilters o = true) ∧
    (∀ t, c.searchTerm = some t → searchPass t o = true) :=
  mem_preSort (mem_pipeline.mp h)

theorem c1_conjunctive_filtering_witness :
    sampleOrder ∈ ordersPipeline (fun s => s) (fun _ _ => true) sampleCriteria [sampleOrder] ∧
    archivePass "active" sampleOrder = true ∧
    accountPass "Acme" sampleOrder = true ∧
    stagePass ["Docs"] sampleOrder = true ∧
    stoplightPass "green" sampleOrder = true ∧
    advPasses (fun s => s) afRegion sampleOrder = true ∧
    searchPass "ali" sampleOrder = true := by
  have hmem : sampleOrder ∈ ordersPipeline (fun s => s) (fun _ _ => true)
      sampleCriteria [sampleOrder] := by decide
  have hc := c1_conjunctive_filtering (fun s => s) (fun _ _ => true)
    sampleCriteria [sampleOrder] sampleOrder hmem
  exact ⟨hmem, hc.2.1, hc.2.2.1 "Acme" rfl, hc.2.2.2.1 (by decide),
    hc.2.2.2.2.1 "green" rfl, hc.2.2.2.2.2.1 (by decide), hc.2.2.2.2.2.2 "ali" rfl⟩

/-! C2 sample data: the document key "CMN" is absent from the patient's
required-document list but the referral's document-status map marks it
Complete. -/

def c2Patient : Patient := ⟨some "Bob", none, none, some ["FACE"]⟩

def c2Order : Order :=
  ⟨"o2", "p2", some c2Patient, some "Intake", none, none,
   some [("CMN", "Complete")], none, none, none, 0, none, none⟩

def c2AF : AdvancedFilters :=
  ⟨none, none, none, none, none, none, none, some "CMN", some "Complete", none, none⟩

def c2Criteria : FilterCriteria := ⟨"all", none, [], none, c2AF, none⟩

/-- C2 counterexample: a referral whose `document_status` marks a key that is
absent from `required_documents` as Complete is KEPT, not excluded, by a
`Complete` document filter on that key: the Complete branch of the filter
(Referrals.tsx line 155) consults only `document_status`. -/
theorem c2_absent_key_counterexample :
    requiredContains c2Order "CMN" = false ∧
    lookupStatus c2Order.document_status "CMN" = some "Complete" ∧
    c2AF.docFilterKey = some "CMN" ∧
    c2AF.docFilterStatus = some "Complete" ∧
    docFilterPass c2Order "CMN" "Complete" = true ∧
    ordersPipeline (fun s => s) (fun _ _ => true) c2Criteria [c2Order] = [c2Order] := by
  decide

/-- C2 (amended): a key absent from the patient's required_documents list never
satisfies the `Missing` requirement and always satisfies `Not Required`; the
`Complete` requirement ignores required_documents and is satisfied exactly when
document_status marks that key Complete. -/
theorem c2_doc_filter_amended (o : Order) (key : String) :
    (requiredContains o key = false → docFilterPass o key "Missing" = false) ∧
    (requiredContains o key = false → docFilterPass o key "Not Required" = true) ∧
    (docFilterPass o key "Complete" = true ↔
      lookupStatus o.document_status key = some "Complete") := by
  have hmc : (("Missing" : String) == "Complete") = false := by decide
  have hmm : (("Missing" : String) == "Missing") = true := by decide
  have hnc : (("Not Required" : String) == "Complete") = false := by decide
  have hnm : (("Not Required" : String) == "Missing") = false := by decide
  have hnn : (("Not Required" : String) == "Not Required") = true := by decide
  have hcc : (("Complete" : String) == "Complete") = true := by decide
  have hcm : (("Complete" : String) == "Missing") = false := by decide
  have hcn : (("Complete" : String) == "Not Required") = false := by decide
  refine ⟨?_, ?_, ?_⟩
  · intro hR
    simp [docFilterPass, hmc, hmm, hR]
  · intro hR
    simp [docFilterPass, hnc, hnm, hnn, hR]
  · unfold docFilterPass
    simp only [hcc, hcm, hcn, Bool.true_and, Bool.false_and, if_false]
    cases hC : lookupStatus o.document_status key == some "Complete" with
    | true =>
      simp only [hC, Bool.not_true, if_false]
      simp [beq_iff_eq] at hC
      simp [hC]
    | false =>
      simp only [hC, Bool.not_false, if_true]
      simp [beq_iff_eq] at hC
      simp [hC]

theorem c2_doc_filter_amended_witness :
    docFilterPass c2Order "CMN" "Missing" = false ∧
    docFilterPass c2Order "CMN" "Not Required" = true ∧
    docFilterPass c2Order "CMN" "Complete" = true :=
  ⟨(c2_doc_filter_amended c2Order "CMN").1 (by decide),
   (c2_doc_filter_amended c2Order "CMN").2.1 (by decide),
   (c2_doc_filter_amended c2Order "CMN").2.2.mpr (by decide)⟩

/-- C3: the dashboard delta function returns 100 for prev = 0 and current > 0,
0 for prev = 0 and current = 0, and the relative formula otherwise (prev = 10,
current = 5 gives -50); in the kpis object the four count metrics use
`calculateDelta` while `docsCompletePercent` and `avgAge` use the absolute
difference current - prev. -/
theorem c3_delta_formulas :
    calculateDelta 5 0 = 100 ∧
    calculateDelta 0 0 = 0 ∧
    calculateDelta 5 10 = -50 ∧
    (∀ c p : ℚ, p = 0 → 0 < c → calculateDelta c p = 100) ∧
    (∀ c p : ℚ, p = 0 → c = 0 → calculateDelta c p = 0) ∧
    (∀ c p : ℚ, p ≠ 0 → calculateDelta c p = ((c - p) / p) * 100) ∧
    (∀ cur prev : PeriodMetrics,
      (mkKpis cur prev).newReferrals.delta
          = calculateDelta (cur.newReferrals : ℚ) (prev.newReferrals : ℚ) ∧
      (mkKpis cur prev).readyForPar.delta
          = calculateDelta (cur.readyForPar : ℚ) (prev.readyForPar : ℚ) ∧
      (mkKpis cur prev).denials.delta
          = calculateDelta (cur.denials : ℚ) (prev.denials : ℚ) ∧
      (mkKpis cur prev).regressions.delta
          = calculateDelta (cur.regressions : ℚ) (prev.regressions : ℚ) ∧
      (mkKpis cur prev).docsCompletePercent.delta
          = cur.docsCompletePercent - prev.docsCompletePercent ∧
      (mkKpis cur prev).avgAge.delta = cur.avgAge - prev.avgAge) := by
  refine ⟨by norm_num [calculateDelta], by norm_num [calculateDelta],
    by norm_num [calculateDelta], ?_, ?_, ?_, ?_⟩
  · intro c p hp hc
    rw [calculateDelta, if_pos hp, if_pos hc]
  · intro c p hp hc
    rw [calculateDelta, if_pos hp, if_neg (by rw [hc]; exact lt_irrefl 0)]
  · intro c p hp
    rw [calculateDelta, if_neg hp]
  · intro cur prev
    exact ⟨rfl, rfl, rfl, rfl, rfl, rfl⟩

theorem c3_delta_formulas_witness : calculateDelta 7 2 = 250 := by
  rw [c3_delta_formulas.2.2.2.2.2.1 7 2 (by norm_num)]
  norm_num

/-- C4: the advanced date-range filter is inclusive on both ends: `dateEnd` is
normalized to 23:59:59.999 of its day (86399999 ms past midnight) before
comparison, a referral timestamped exactly at that instant passes and one a
millisecond later fails; a referral dated exactly at `dateStart` passes; and
any record the advanced filter keeps respects both bounds. -/
theorem c4_date_range_inclusive :
    (∀ s r : Int, dateStartPass (some s) (some r) = true ↔ s ≤ r) ∧
    (∀ e r : Int, dateEndPass (some e) (some r) = true ↔ r ≤ endOfDay e) ∧
    (∀ e : Int, endOfDay e = e + 86399999) ∧
    (∀ s : Int, dateStartPass (some s) (some s) = true) ∧
    (∀ e : Int, dateEndPass (some e) (some (endOfDay e)) = true ∧
        dateEndPass (some e) (some (endOfDay e + 1)) = false) ∧
    (∀ (isoDate : String → String) (af : AdvancedFilters) (o : Order),
      advPasses isoDate af o = true →
      (∀ s r, af.dateStart = some s → o.referral_date = some r → s ≤ r) ∧
      (∀ e r, af.dateEnd = some e → o.referral_date = some r → r ≤ endOfDay e)) := by
  have hs : ∀ s r : Int, dateStartPass (some s) (some r) = true ↔ s ≤ r := by
    intro s r
    simp [dateStartPass, not_lt]
  have he : ∀ e r : Int, dateEndPass (some e) (some r) = true ↔ r ≤ endOfDay e := by
    intro e r
    simp [dateEndPass, not_lt]
  refine ⟨hs, he, fun _ => rfl, fun s => (hs s s).mpr le_rfl,
    fun e => ⟨(he e _).mpr le_rfl, ?_⟩, ?_⟩
  · simp [dateEndPass, not_lt]
  · intro isoDate af o h
    have hdates : dateStartPass af.dateStart o.referral_date = true ∧
        dateEndPass af.dateEnd o.referral_date = true := by
      cases hp : o.patients with
      | none => rw [advPasses, hp] at h; simp at h
      | some patient =>
        rw [advPasses, hp] at h
        simp only [Bool.and_eq_true] at h
        tauto
    constructor
    · intro s r hstart hrd
      rw [hstart, hrd] at hdates
      exact (hs s r).mp hdates.1
    · intro e r hend hrd
      rw [hend, hrd] at hdates
      exact (he e r).mp hdates.2

theorem c4_date_range_inclusive_witness :
    (100 : Int) ≤ 150 ∧ (150 : Int) ≤ endOfDay 200 := by
  have h := (c4_date_range_inclusive.2.2.2.2.2 (fun s => s) c4AF c4Order (by decide))
  exact ⟨h.1 100 150 rfl rfl, h.2 200 150 rfl rfl⟩

/-- C5: for stages taken from the configured ordered stage list, a transition
is classified a regression exactly when the new stage's index is strictly less
than the current stage's index. -/
theorem c5_regression_iff_earlier_index (stages : List String) (h : stages.Nodup)
    (i j : Fin stages.length) :
    isBackward stages (stages.get i) (stages.get j) = true ↔ (j : ℕ) < (i : ℕ) := by
  unfold isBackward
  rw [stageIdx_get stages h i, stageIdx_get stages h j]
  exact decide_eq_true_iff

theorem c5_regression_iff_earlier_index_witness :
    isBackward ["s0", "s1", "s2", "s3"] "s3" "s1" = true ∧
    isBackward ["s0", "s1", "s2", "s3"] "s1" "s3" = false ∧
    isBackward ["s0", "s1", "s2", "s3"] "s2" "s2" = false := by
  refine ⟨?_, by decide, by decide⟩
  exact (c5_regression_iff_earlier_index ["s0", "s1", "s2", "s3"] (by decide)
    ⟨3, by decide⟩ ⟨1, by decide⟩).mpr (by decide)

theorem metricsDocsReady_eq_readySpec (o : Order) : metricsDocsReady o = readySpec o := by
  unfold metricsDocsReady readySpec requiredDocsOf
  cases hp : o.patients with
  | none => simp
  | some p =>
    cases hr : p.required_documents with
    | none => simp [hr]
    | some reqs => cases reqs <;> simp [hr, docCompleteFor]

/-- C6: a referral counts as Docs Ready (readyForPar on the dashboard, the
Trends `isReady`) exactly when its patient has at least one required document
and every required document's status equals Complete — zero required documents
is never ready — and the document-completion percentage is
completedDocs/totalDocs*100 when totalDocs is positive and 0 otherwise. -/
theorem c6_docs_ready_definition (stages : List String) (daysOld : Int → ℚ)
    (orders : List Order) (fromDate toDate : Int) :
    (calculateMetricsForPeriod stages daysOld orders fromDate toDate).readyForPar
        = ((periodFilter fromDate toDate orders).filter readySpec).length ∧
    (∀ o : Order, metricsDocsReady o = readySpec o) ∧
    (∀ o : Order, trendDocsReady o = readySpec o) ∧
    (∀ o : Order, requiredDocsOf o = [] → readySpec o = false) ∧
    (calculateMetricsForPeriod stages daysOld orders fromDate toDate).docsCompletePercent
        = (if 0 < totalDocs (periodFilter fromDate toDate orders) then
            ((completedDocs (periodFilter fromDate toDate orders) : ℚ) /
              (totalDocs (periodFilter fromDate toDate orders) : ℚ)) * 100
          else 0) := by
  refine ⟨?_, metricsDocsReady_eq_readySpec,
    fun o => metricsDocsReady_eq_readySpec o, ?_, rfl⟩
  · exact congrArg List.length
      (List.filter_congr (fun a _ => metricsDocsReady_eq_readySpec a))
  · intro o h
    rw [← metricsDocsReady_eq_readySpec o]
    unfold metricsDocsReady
    rw [h]
    rfl

theorem c6_docs_ready_definition_witness :
    (calculateMetricsForPeriod [] (fun _ => 0) sampleOrders 0 10).readyForPar
        = ((periodFilter 0 10 sampleOrders).filter readySpec).length ∧
    readySpec bareOrder = false := by
  have h := c6_docs_ready_definition [] (fun _ => 0) sampleOrders 0 10
  exact ⟨h.1, h.2.2.2.1 bareOrder rfl⟩

def allCriteria : FilterCriteria := ⟨"all", none, [], none, afNone, none⟩

/-- C7: the filtered referral list is sorted ascending by the patient display
name key (a missing patient name acts as the empty string) under the
localeCompare comparator, and the sort is stable: for every key, the records
carrying that key appear in the same order as in the pre-sort collection. -/
theorem c7_sorted_stable (isoDate : String → String) (lcLe : String → String → Bool)
    (htot : ∀ a b, lcLe a b = true ∨ lcLe b a = true)
    (htr : ∀ a b c, lcLe a b = true → lcLe b c = true → lcLe a c = true)
    (c : FilterCriteria) (l : List Order) :
    (ordersPipeline isoDate lcLe c l).Pairwise
        (fun x y => lcLe (sortKey x) (sortKey y) = true) ∧
    (∀ k : String, (ordersPipeline isoDate lcLe c l).filter (fun o => sortKey o == k)
        = (preSortPipeline isoDate c l).filter (fun o => sortKey o == k)) ∧
    (∀ o : Order, o.patients.bind Patient.name = none → sortKey o = "") := by
  have htotO : ∀ x y : Order, sortLe lcLe x y ∨ sortLe lcLe y x :=
    fun x y => htot (sortKey x) (sortKey y)
  have htrO : ∀ x y z : Order, sortLe lcLe x y → sortLe lcLe y z → sortLe lcLe x z :=
    fun x y z => htr (sortKey x) (sortKey y) (sortKey z)
  refine ⟨?_, ?_, ?_⟩
  · haveI : IsTotal Order (sortLe lcLe) := ⟨htotO⟩
    haveI : IsTrans Order (sortLe lcLe) := ⟨htrO⟩
    exact List.sorted_insertionSort (sortLe lcLe) _
  · intro k
    unfold ordersPipeline
    rw [filter_insertionSort htotO htrO]
    apply List.Sorted.insertionSort_eq
    apply List.pairwise_of_forall_mem_list
    intro x hx y hy
    have hkx : sortKey x = k := by
      have hb := (List.mem_filter.mp hx).2
      simpa [beq_iff_eq] using hb
    have hky : sortKey y = k := by
      have hb := (List.mem_filter.mp hy).2
      simpa [beq_iff_eq] using hb
    show lcLe (sortKey x) (sortKey y) = true
    rw [hkx, hky]
    rcases htot k k with h | h <;> exact h
  · intro o h
    unfold sortKey
    rw [h]
    rfl

theorem c7_sorted_stable_witness :
    (ordersPipeline (fun s => s) (fun a b => decide (a ≤ b)) allCriteria
        sampleOrders).filter (fun o => sortKey o == "")
      = (preSortPipeline (fun s => s) allCriteria sampleOrders).filter
          (fun o => sortKey o == "") :=
  (c7_sorted_stable (fun s => s) (fun a b => decide (a ≤ b)) strLe_total strLe_trans
    allCriteria sampleOrders).2.1 ""

/-- C8: a stage-change save writes a row to the regressions table only when
the transition is backward: whenever `isBackward` is false for the saved
transition, no `insertRegression` effect is emitted by `handleStageSave`. -/
theorem c8_no_regression_row (stages : List String) (o : Order)
    (currentStage newStage note : String) (regressionReason : Option String)
    (orderUpdateFails : Bool)
    (h : isBackward stages currentStage newStage = false) :
    (handleStageSave stages o currentStage newStage note regressionReason
        orderUpdateFails).all (fun e => !isRegressionInsert e) = true := by
  unfold handleStageSave
  cases hp : o.patients.isNone <;> cases hf : orderUpdateFails <;>
    simp [hp, hf, h, isRegressionInsert]

theorem c8_no_regression_row_witness :
    (handleStageSave ["Intake", "Docs"] sampleOrder "Intake" "Docs" "note" (some "why")
        false).all (fun e => !isRegressionInsert e) = true :=
  c8_no_regression_row ["Intake", "Docs"] sampleOrder "Intake" "Docs" "note"
    (some "why") false (by decide)

/-- C9: with every other criterion fixed, the archive modes partition the
`all`-mode result: the `active` and `archived` results are the complementary
filters of the `all` result (hence disjoint, jointly exhaustive, and in the
same relative order), and a missing or unrecognized `archive_status` URL
parameter resolves to `active`. -/
theorem c9_archive_partition (isoDate : String → String) (lcLe : String → String → Bool)
    (htot : ∀ a b, lcLe a b = true ∨ lcLe b a = true)
    (htr : ∀ a b c, lcLe a b = true → lcLe b c = true → lcLe a c = true)
    (acc : Option String) (act : List String) (stop : Option String)
    (af : AdvancedFilters) (t : Option String) (l : List Order) :
    ordersPipeline isoDate lcLe ⟨"active", acc, act, stop, af, t⟩ l
        = (ordersPipeline isoDate lcLe ⟨"all", acc, act, stop, af, t⟩ l).filter
            (archivePass "active") ∧
    ordersPipeline isoDate lcLe ⟨"archived", acc, act, stop, af, t⟩ l
        = (ordersPipeline isoDate lcLe ⟨"all", acc, act, stop, af, t⟩ l).filter
            (archivePass "archived") ∧
    (∀ o : Order, archivePass "archived" o = !archivePass "active" o) ∧
    (∀ o : Order,
      o ∈ ordersPipeline isoDate lcLe ⟨"active", acc, act, stop, af, t⟩ l →
      o ∈ ordersPipeline isoDate lcLe ⟨"archived", acc, act, stop, af, t⟩ l → False) ∧
    resolveArchiveFilter none = "active" ∧
    (∀ p : String, ¬p = "active" → ¬p = "archived" → ¬p = "all" →
      resolveArchiveFilter (some p) = "active") := by
  refine ⟨pipeline_mk_archive isoDate lcLe htot htr "active" acc act stop af t l,
    pipeline_mk_archive isoDate lcLe htot htr "archived" acc act stop af t l,
    archivePass_archived_not_active, ?_, rfl, ?_⟩
  · intro o h1 h2
    have a1 : archivePass "active" o = true := (mem_preSort (mem_pipeline.mp h1)).2.1
    have a2 : archivePass "archived" o = true := (mem_preSort (mem_pipeline.mp h2)).2.1
    rw [archivePass_archived_not_active, a1] at a2
    simp at a2
  · intro p h1 h2 h3
    simp [resolveArchiveFilter, h1, h2, h3]

theorem c9_archive_partition_witness :
    ordersPipeline (fun s => s) (fun a b => decide (a ≤ b))
        ⟨"active", none, [], none, afNone, none⟩ sampleOrders
      = (ordersPipeline (fun s => s) (fun a b => decide (a ≤ b))
          ⟨"all", none, [], none, afNone, none⟩ sampleOrders).filter
            (archivePass "active") ∧
    resolveArchiveFilter (some "bogus") = "active" := by
  have h := c9_archive_partition (fun s => s) (fun a b => decide (a ≤ b)) strLe_total
    strLe_trans none [] none afNone none sampleOrders
  exact ⟨h.1, h.2.2.2.2.2 "bogus" (by decide) (by decide) (by decide)⟩

/-- C10: whenever any advanced-filter field is set, every referral without a
joined patient record is excluded from the filtered result, whichever field it
is; with no advanced-filter field set, a referral without a joined patient can
appear in the result. -/
theorem c10_advanced_patient_guard :
    (∀ (isoDate : String → String) (lcLe : String → String → Bool)
        (c : FilterCriteria) (l : List Order) (o : Order),
      c.advancedFilters.isActive = true → o ∈ ordersPipeline isoDate lcLe c l →
      o.patients.isSome = true) ∧
    (∃ (c : FilterCriteria) (l : List Order) (o : Order),
      c.advancedFilters.isActive = false ∧ o.patients = none ∧
      o ∈ ordersPipeline (fun s => s) (fun _ _ => true) c l) := by
  constructor
  · intro isoDate lcLe c l o hact h
    have hadv := (mem_preSort (mem_pipeline.mp h)).2.2.2.2.2.1 hact
    cases hp : o.patients with
    | none =>
      unfold advPasses at hadv
      rw [hp] at hadv
      simp at hadv
    | some p => rfl
  · exact ⟨⟨"all", none, [], none, afNone, none⟩, [bareOrder], bareOrder, rfl, rfl,
      by decide⟩

theorem c10_advanced_patient_guard_witness : sampleOrder.patients.isSome = true :=
  c10_advanced_patient_guard.1 (fun s => s) (fun _ _ => true) sampleCriteria
    [sampleOrder] sampleOrder (by decide) (by decide)

end PatientSync
